import Mathlib

/-!
Verification development for the fastmatcher repository: a multi-pattern
substring search engine (an Aho-Corasick core exposed to Python) together
with a FastAPI orchestration layer (src/web/main.py) and example scripts
(src/scan_test.py, src/simple_test.py).

Texts, lines and keyword patterns are embedded as `List Char`; file paths
as `String`.  The Rust search core (`ACMatcher.search`,
`ACMatcher.search_files_iter`) is not part of src/, so it is modelled from
the spec at the level of its documented observable behaviour.  The Python
orchestration functions are translated directly from src/.
-/

namespace FastMatcher

/-- Modelled from the spec: the case folding applied by the matcher core when
`ignore_case` is set (simple per-character case mapping, length preserving, a
no-op on CJK characters).  Missing from src/: the Rust fastmatcher core. -/
def foldChar (ic : Bool) (c : Char) : Char :=
  if ic then c.toLower else c

/-- Modelled from the spec: folding applied uniformly to patterns before
insertion and to every scanned character.  Missing from src/: the Rust
fastmatcher core. -/
def foldStr (ic : Bool) (s : List Char) : List Char :=
  s.map (foldChar ic)

/-- Modelled from the spec: the Line and Context Indexer consumes the text as
a sequence of lines, split on line terminators with the terminator stripped
from the content.  Missing from src/: the Rust fastmatcher core. -/
def splitLines : List Char → List (List Char)
  | [] => [[]]
  | c :: rest =>
    if c = '\n' then [] :: splitLines rest
    else
      match splitLines rest with
      | [] => [[c]]
      | h :: t => (c :: h) :: t

/-- Plain substring occurrence: `p` occurs contiguously somewhere in `s`. -/
def containsSub (s p : List Char) : Bool :=
  (List.range (s.length + 1)).any (fun i => (s.drop i).take p.length == p)

/-- Modelled from the spec: the scan engine emits a match event for pattern
`p` with end offset `e` exactly when the folded pattern is the slice of the
folded line ending at position `e` (the output set of the automaton state
reached after `e` symbols).  Missing from src/: the Rust fastmatcher core. -/
def endsAt (ic : Bool) (p line : List Char) (e : Nat) : Bool :=
  decide (p.length ≤ e) &&
    (((foldStr ic line).drop (e - p.length)).take p.length == foldStr ic p)

/-- Keep the first occurrence of every element not already in `seen`,
preserving first-seen order. -/
def dedupFirstAux (seen : List (List Char)) : List (List Char) → List (List Char)
  | [] => []
  | x :: xs =>
    if x ∈ seen then dedupFirstAux seen xs
    else x :: dedupFirstAux (x :: seen) xs

/-- Keep the first occurrence of every element, preserving first-seen order
(the aggregator reports each distinct keyword once, in first-match order). -/
def dedupFirst (l : List (List Char)) : List (List Char) :=
  dedupFirstAux [] l

/-- Modelled from the spec: the distinct original keyword texts matching on
one line, in first-match order (events scanned in increasing end offset, ties
in pattern insertion order; an empty pattern never matches).  Missing from
src/: the Rust fastmatcher core. -/
def lineKeywords (pats : List (List Char)) (ic : Bool) (line : List Char) :
    List (List Char) :=
  dedupFirst ((List.range (line.length + 1)).flatMap (fun e =>
    pats.filter (fun p => !p.isEmpty && endsAt ic p line e)))

/-- Modelled from the spec: up to `ctx` lines before and after line `i`,
clipped at the text boundaries, the matched line included.  Missing from
src/: the Rust fastmatcher core. -/
def contextWindow (ls : List (List Char)) (ctx i : Nat) : List (List Char) :=
  (ls.take (i + ctx + 1)).drop (i - ctx)

/-- Modelled from the spec: the externally visible match record (file path,
1-based line number, distinct keyword list, context lines). -/
structure MatchInfo where
  filePath : Option String
  lineNo : Nat
  keywords : List (List Char)
  lines : List (List Char)
deriving DecidableEq

/-- Modelled from the spec: `search(text)` — one `MatchInfo` per line on
which at least one configured pattern matches, carrying the 1-based line
number, the merged keyword list and the context window; no file path for
raw-text search.  Missing from src/: the Rust fastmatcher core. -/
def search (pats : List (List Char)) (ic : Bool) (ctx : Nat)
    (text : List Char) : List MatchInfo :=
  let ls := splitLines text
  (List.range ls.length).filterMap (fun i =>
    let kws := lineKeywords pats ic (ls.getD i [])
    if kws.isEmpty then none
    else some { filePath := none, lineNo := i + 1, keywords := kws,
                lines := contextWindow ls ctx i })

/-- Modelled from the spec: `search_files_iter(paths)` — for each path in
order, a successful read yields that file's matches tagged with the path; an
open/read failure is skipped and the path is reported on a side channel (the
second component) instead of aborting the scan.  A file is given as its path
plus `some` content on a successful read or `none` for a read failure.
Missing from src/: the Rust fastmatcher core. -/
def searchFilesIter (pats : List (List Char)) (ic : Bool) (ctx : Nat) :
    List (String × Option (List Char)) → List MatchInfo × List String
  | [] => ([], [])
  | (path, none) :: rest =>
    let r := searchFilesIter pats ic ctx rest
    (r.1, path :: r.2)
  | (path, some content) :: rest =>
    let r := searchFilesIter pats ic ctx rest
    ((search pats ic ctx content).map
      (fun m => { m with filePath := some path }) ++ r.1, r.2)

/-- Python str.strip(): remove leading and trailing whitespace
(validate_keywords in src/web/main.py applies kw.strip()). -/
def pyStrip (s : List Char) : List Char :=
  ((s.dropWhile Char.isWhitespace).reverse.dropWhile Char.isWhitespace).reverse

/-- SearchRequest.validate_keywords (src/web/main.py): reject an empty list;
strip every keyword and keep the non-blank ones; reject if none survives;
otherwise return the cleaned list. -/
def validateKeywords (v : List (List Char)) :
    Except String (List (List Char)) :=
  if v.isEmpty then Except.error "关键词列表不能为空"
  else
    let cleaned := (v.map pyStrip).filter (fun s => !s.isEmpty)
    if cleaned.isEmpty then Except.error "关键词不能全为空"
    else Except.ok cleaned

/-- SearchRequest.validate_context (src/web/main.py): the context line count
must lie between 0 and 10. -/
def validateContext (v : Int) : Except String Int :=
  if v < 0 ∨ v > 10 then Except.error "上下文行数必须在0-10之间"
  else Except.ok v

/-- SearchRequest.validate_batch_size (src/web/main.py): the batch size must
lie between 100 and 10000. -/
def validateBatchSize (v : Int) : Except String Int :=
  if v < 100 ∨ v > 10000 then Except.error "批处理大小必须在100-10000之间"
  else Except.ok v

/-- The web request model (SearchRequest in src/web/main.py): directory,
keyword list, context and batch size.  The model has no case-sensitivity
field. -/
structure SearchRequest where
  directory : String
  keywords : List (List Char)
  context : Int := 1
  batchSize : Int := 2000

/-- The constructor arguments of the Rust ACMatcher. -/
structure ACMatcherConfig where
  patterns : List (List Char)
  ignoreCase : Bool
  context : Int

/-- run_full_search (src/web/main.py) initialises the matcher as
ACMatcher(patterns=req.keywords, ignore_case=True, context=req.context). -/
def matcherConfigFor (req : SearchRequest) : ACMatcherConfig :=
  { patterns := req.keywords, ignoreCase := true, context := req.context }

/-- batched (src/web/main.py and src/scan_test.py): repeatedly slice off the
next `size` elements until a slice comes back empty. -/
def batched (l : List α) (size : Nat) : List (List α) :=
  if _h : size = 0 then []
  else
    match l with
    | [] => []
    | a :: t => (a :: t).take size :: batched ((a :: t).drop size) size
termination_by l.length
decreasing_by
  simp only [List.length_drop, List.length_cons]
  omega

/-- One batch of the scan: search_files_batch (src/web/main.py) runs
search_files_iter over the batch and collects the match records. -/
def batchMatches (pats : List (List Char)) (ic : Bool) (ctx : Nat)
    (b : List (String × Option (List Char))) : List MatchInfo :=
  (searchFilesIter pats ic ctx b).1

/-- The loop of run_full_search (src/web/main.py): before each batch the
cancel event is polled (`cancel i` is its value at the i-th check); a set
event breaks out of the loop; otherwise the batch is searched, the matches
and the processed-file count are accumulated, and a progress snapshot
(processed/total, or 0 when total is 0, paired with the processed count) is
written to the result store.  Returns the accumulated matches, the processed
count, and the list of snapshots in the order they were written. -/
def searchLoop (pats : List (List Char)) (ic : Bool) (ctx : Nat) (total : Nat)
    (cancel : Nat → Bool) :
    List (List (String × Option (List Char))) → Nat → List MatchInfo → Nat →
      List MatchInfo × Nat × List (ℚ × Nat)
  | [], _, accM, accP => (accM, accP, [])
  | b :: rest, i, accM, accP =>
    if cancel i then (accM, accP, [])
    else
      let accM2 := accM ++ batchMatches pats ic ctx b
      let accP2 := accP + b.length
      let prog : ℚ := if total = 0 then 0 else (accP2 : ℚ) / (total : ℚ)
      let r := searchLoop pats ic ctx total cancel rest (i + 1) accM2 accP2
      (r.1, r.2.1, (prog, accP2) :: r.2.2)

/-- The search_results entry stored for one search id, as written by
run_full_search: the final fields updated after the loop, plus the history of
(progress, processed) snapshots written during the loop. -/
structure Stored where
  progress : ℚ
  completed : Bool
  processed : Nat
  total : Nat
  results : List MatchInfo
  count : Nat
  trace : List (ℚ × Nat)

/-- run_full_search (src/web/main.py): list the files, batch them with the
requested batch size, run the loop, then store the final record
(progress 1.0, completed, the accumulated results and their count). -/
def runFullSearch (pats : List (List Char)) (ic : Bool) (ctx : Nat)
    (files : List (String × Option (List Char))) (bsz : Nat)
    (cancel : Nat → Bool) : Stored :=
  let batches := batched files bsz
  let r := searchLoop pats ic ctx files.length cancel batches 0 [] 0
  { progress := 1, completed := true, processed := r.2.1,
    total := files.length, results := r.1, count := r.1.length,
    trace := r.2.2 }

/-- The history of (progress, processed) snapshots written to the result
store during a run of run_full_search whose cancel event reads set from the
k-th poll onward (an asyncio.Event stays set once set, so the polled value is
`k ≤ i` at the i-th check). -/
def storedTrace (pats : List (List Char)) (ic : Bool) (ctx : Nat)
    (files : List (String × Option (List Char))) (bsz k : Nat) :
    List (ℚ × Nat) :=
  (runFullSearch pats ic ctx files bsz (fun i => decide (k ≤ i))).trace

/-- A directory entry as seen by the walkers: its path and the two OS
predicates the code consults (Path.is_file and os.access(..., R_OK)),
taken as a snapshot of the file system at walk time. -/
structure FsEntry where
  path : String
  isFile : Bool
  readable : Bool
deriving DecidableEq

/-- iter_files_async (src/web/main.py): yield the path of every entry under
the root that is a regular file and readable. -/
def iterFilesWeb (entries : List FsEntry) : List String :=
  (entries.filter (fun e => e.isFile && e.readable)).map FsEntry.path

/-- iter_files_async (src/scan_test.py) and iter_files (src/simple_test.py):
yield the path of every regular file, with no permission check. -/
def iterFilesScanTest (entries : List FsEntry) : List String :=
  (entries.filter (fun e => e.isFile)).map FsEntry.path

/-- The snapshot list produced by the search loop, as a function of the
processed batch sizes: running processed counts paired with their progress
values. -/
def traceFrom (total : Nat) : List Nat → Nat → List (ℚ × Nat)
  | [], _ => []
  | n :: rest, p =>
    ((if total = 0 then 0 else ((p + n : Nat) : ℚ) / (total : ℚ)), p + n)
      :: traceFrom total rest (p + n)

/-! ## Helper lemmas -/

theorem aux_isEmpty_false_of_mem {α : Type} {a : α} {l : List α}
    (h : a ∈ l) : l.isEmpty = false := by
  cases l
  · cases h
  · rfl

/-! ## C9: the web layer always constructs a case-insensitive matcher -/

/-- C9: for every search request accepted by the HTTP interface, the matcher
is constructed with ignore_case=True; the request model exposes no
case-sensitivity field, so matching through the web layer is always
case-insensitive regardless of request content. -/
theorem matcherConfigFor_ignoreCase (req : SearchRequest) :
    (matcherConfigFor req).ignoreCase = true := rfl

/-! ## C10: batch size validation -/

/-- C10: request validation accepts a batch_size exactly when it lies between
100 and 10000 inclusive; any value outside that range fails with a
validation error. -/
theorem validateBatchSize_spec (v : Int) :
    (100 ≤ v → v ≤ 10000 → validateBatchSize v = Except.ok v)
    ∧ ((v < 100 ∨ 10000 < v) →
        validateBatchSize v = Except.error "批处理大小必须在100-10000之间") := by
  refine ⟨fun h1 h2 => ?_, fun h => ?_⟩
  · unfold validateBatchSize
    rw [if_neg (by omega)]
  · unfold validateBatchSize
    rw [if_pos (by omega)]

theorem validateBatchSize_spec_witness :
    (100 : Int) ≤ 2000 ∧ validateBatchSize 2000 = Except.ok 2000 :=
  ⟨by decide, (validateBatchSize_spec 2000).1 (by decide) (by decide)⟩

/-! ## C5: context validation is bounded above, contrary to the claim -/

/-- C5 counterexample: context=11 is non-negative yet validate_context
rejects it, refuting the claim that every non-negative context value is
accepted. -/
theorem validateContext_counterexample :
    (0 : Int) ≤ 11
      ∧ validateContext 11 = Except.error "上下文行数必须在0-10之间" :=
  ⟨by decide, rfl⟩

/-- C5 (amended): request validation accepts a context value exactly when it
lies between 0 and 10 inclusive, and rejects negative values and values
greater than 10 with a configuration error. -/
theorem validateContext_spec (v : Int) :
    (0 ≤ v → v ≤ 10 → validateContext v = Except.ok v)
    ∧ ((v < 0 ∨ 10 < v) →
        validateContext v = Except.error "上下文行数必须在0-10之间") := by
  refine ⟨fun h1 h2 => ?_, fun h => ?_⟩
  · unfold validateContext
    rw [if_neg (by omega)]
  · unfold validateContext
    rw [if_pos (by omega)]

theorem validateContext_spec_witness :
    (0 : Int) ≤ 5 ∧ validateContext 5 = Except.ok 5 :=
  ⟨by decide, (validateContext_spec 5).1 (by decide) (by decide)⟩

/-! ## C3: keyword validation -/

/-- C3: keyword validation fails with an error identifying the failed check
when the list is empty or every keyword is blank after stripping, before any
scanning is involved, and succeeds with exactly the stripped non-blank
keywords when at least one keyword is non-blank. -/
theorem validateKeywords_spec (v : List (List Char)) :
    (v = [] → validateKeywords v = Except.error "关键词列表不能为空")
    ∧ (v ≠ [] → (∀ s ∈ v, pyStrip s = []) →
        validateKeywords v = Except.error "关键词不能全为空")
    ∧ ((∃ s ∈ v, pyStrip s ≠ []) →
        validateKeywords v
          = Except.ok ((v.map pyStrip).filter (fun s => !s.isEmpty))) := by
  refine ⟨fun hv => by rw [hv]; rfl, fun hne hall => ?_, fun hex => ?_⟩
  · have hve : v.isEmpty = false := by
      cases v
      · exact absurd rfl hne
      · rfl
    have hcl : (v.map pyStrip).filter (fun s => !s.isEmpty) = [] := by
      rw [List.filter_eq_nil_iff]
      intro a ha
      rcases List.mem_map.mp ha with ⟨s, hs, rfl⟩
      simp [hall s hs]
    simp [validateKeywords, hve, hcl]
  · rcases hex with ⟨s, hs, hsne⟩
    have hve : v.isEmpty = false := aux_isEmpty_false_of_mem hs
    have hmem : pyStrip s ∈ (v.map pyStrip).filter (fun t => !t.isEmpty) := by
      rw [List.mem_filter]
      refine ⟨List.mem_map.mpr ⟨s, hs, rfl⟩, ?_⟩
      cases hps : pyStrip s
      · exact absurd hps hsne
      · rfl
    have hcl : ((v.map pyStrip).filter (fun t => !t.isEmpty)).isEmpty = false :=
      aux_isEmpty_false_of_mem hmem
    simp [validateKeywords, hve, hcl]

theorem validateKeywords_spec_witness :
    (∃ s ∈ [[' '], ['a', ' ']], pyStrip s ≠ [])
      ∧ validateKeywords [[' '], ['a', ' ']] = Except.ok [['a']] := by
  refine ⟨⟨['a', ' '], by decide, by decide⟩, ?_⟩
  have h := (validateKeywords_spec [[' '], ['a', ' ']]).2.2
    ⟨['a', ' '], by decide, by decide⟩
  rw [h]
  exact congrArg Except.ok (by decide)

/-! ## C8: the directory walkers and the permission filter -/

/-- C8 counterexample: the walker in src/scan_test.py (and likewise
src/simple_test.py) yields a regular file that the process cannot read, so
not every path handed to search_files_iter is readable. -/
theorem iterFilesScanTest_counterexample :
    iterFilesScanTest [{ path := "f", isFile := true, readable := false }]
        = ["f"]
      ∧ FsEntry.readable { path := "f", isFile := true, readable := false }
        = false :=
  ⟨rfl, rfl⟩

/-- C8 (amended): every path yielded by the walker in src/web/main.py refers
to a regular, readable file; the walkers in src/scan_test.py and
src/simple_test.py guarantee only the regular-file property and perform no
permission check. -/
theorem iterFiles_filter_spec (entries : List FsEntry) :
    (∀ p ∈ iterFilesWeb entries,
        ∃ e ∈ entries, e.path = p ∧ e.isFile = true ∧ e.readable = true)
    ∧ (∀ p ∈ iterFilesScanTest entries,
        ∃ e ∈ entries, e.path = p ∧ e.isFile = true) := by
  constructor
  · intro p hp
    rcases List.mem_map.mp hp with ⟨e, he, rfl⟩
    rcases List.mem_filter.mp he with ⟨he1, he2⟩
    rcases Bool.and_eq_true_iff.mp he2 with ⟨hf, hr⟩
    exact ⟨e, he1, rfl, hf, hr⟩
  · intro p hp
    rcases List.mem_map.mp hp with ⟨e, he, rfl⟩
    rcases List.mem_filter.mp he with ⟨he1, he2⟩
    exact ⟨e, he1, rfl, he2⟩

theorem iterFiles_filter_spec_witness :
    ∃ e ∈ [({ path := "g", isFile := true, readable := true } : FsEntry)],
      e.path = "g" ∧ e.isFile = true ∧ e.readable = true :=
  (iterFiles_filter_spec
      [{ path := "g", isFile := true, readable := true }]).1 "g" (by decide)

/-! ## C2: per-file failures are isolated by search_files_iter -/

/-- C2: during a multi-file scan, a read failure on one file is skipped, the
remaining files of the sequence still contribute exactly the matches they
would contribute without the failing file (none are lost), and the failing
path is reported on the side channel rather than aborting the scan. -/
theorem searchFilesIter_isolates_failure (pats : List (List Char)) (ic : Bool)
    (ctx : Nat) (pre post : List (String × Option (List Char)))
    (bad : String) :
    (searchFilesIter pats ic ctx (pre ++ (bad, none) :: post)).1
        = (searchFilesIter pats ic ctx (pre ++ post)).1
      ∧ bad ∈ (searchFilesIter pats ic ctx (pre ++ (bad, none) :: post)).2 := by
  induction pre with
  | nil => exact ⟨rfl, List.mem_cons_self _ _⟩
  | cons hd tl ih =>
    obtain ⟨p, c⟩ := hd
    cases c with
    | none =>
      simp only [List.cons_append, searchFilesIter, List.append_eq]
      exact ⟨ih.1, List.mem_cons_of_mem _ ih.2⟩
    | some content =>
      simp only [List.cons_append, searchFilesIter, List.append_eq]
      exact ⟨by rw [ih.1], ih.2⟩

/-! ## C6: batching is a partition into size-bounded chunks -/

theorem aux_batched_nil {α : Type} (size : Nat) :
    batched ([] : List α) size = [] := by
  unfold batched
  split
  · rfl
  · rfl

theorem aux_batched_cons {α : Type} (a : α) (t : List α) (size : Nat)
    (h : ¬size = 0) :
    batched (a :: t) size
      = (a :: t).take size :: batched ((a :: t).drop size) size := by
  conv_lhs => rw [batched.eq_def]
  rw [dif_neg h]

theorem aux_batched_props {α : Type} (size : Nat) (h : 0 < size) :
    ∀ (n : Nat) (l : List α), l.length ≤ n →
      ((∀ b ∈ batched l size, b ≠ [])
        ∧ (batched l size).flatten = l
        ∧ (∀ b ∈ batched l size, b.length ≤ size)
        ∧ (∀ b ∈ (batched l size).dropLast, b.length = size)) := by
  intro n
  induction n with
  | zero =>
    intro l hl
    have hnil : l = [] := List.length_eq_zero.mp (Nat.le_zero.mp hl)
    subst hnil
    rw [aux_batched_nil]
    exact ⟨by simp, rfl, by simp, by simp⟩
  | succ n ih =>
    intro l hl
    cases l with
    | nil =>
      rw [aux_batched_nil]
      exact ⟨by simp, rfl, by simp, by simp⟩
    | cons a t =>
      have hne : ¬size = 0 := Nat.pos_iff_ne_zero.mp h
      rw [aux_batched_cons a t size hne]
      have hlen : ((a :: t).drop size).length ≤ n := by
        rw [List.length_drop]
        simp only [List.length_cons]
        simp only [List.length_cons] at hl
        omega
      obtain ⟨ih1, ih2, ih3, ih4⟩ := ih ((a :: t).drop size) hlen
      refine ⟨?_, ?_, ?_, ?_⟩
      · intro b hb
        rcases List.mem_cons.mp hb with hb | hb
        · subst hb
          cases size
          · exact absurd rfl hne
          · simp
        · exact ih1 b hb
      · rw [List.flatten_cons, ih2]
        exact List.take_append_drop size (a :: t)
      · intro b hb
        rcases List.mem_cons.mp hb with hb | hb
        · subst hb
          rw [List.length_take]
          exact min_le_left _ _
        · exact ih3 b hb
      · cases hrec : batched ((a :: t).drop size) size with
        | nil => simp
        | cons r rs =>
          intro b hb
          rw [List.dropLast_cons₂] at hb
          rcases List.mem_cons.mp hb with hb | hb
          · subst hb
            have hdrop : (a :: t).drop size ≠ [] := by
              intro hcon
              rw [hcon, aux_batched_nil] at hrec
              exact List.noConfusion hrec
            have hsz : size < (a :: t).length := by
              by_contra hge
              push_neg at hge
              exact hdrop (List.drop_eq_nil_of_le hge)
            rw [List.length_take]
            omega
          · exact ih4 b (hrec ▸ hb)

/-- C6: for every finite sequence and every batch size greater than 0,
batched yields non-empty sub-sequences whose concatenation in yield order
equals the input sequence, where every batch has length at most `size` and
every batch except possibly the last has length exactly `size`. -/
theorem batched_spec {α : Type} (l : List α) (size : Nat) (h : 0 < size) :
    (∀ b ∈ batched l size, b ≠ [])
    ∧ (batched l size).flatten = l
    ∧ (∀ b ∈ batched l size, b.length ≤ size)
    ∧ (∀ b ∈ (batched l size).dropLast, b.length = size) :=
  aux_batched_props size h l.length l (le_refl _)

theorem batched_spec_witness :
    (0 : Nat) < 2
    ∧ ((∀ b ∈ batched [1, 2, 3] 2, b ≠ [])
        ∧ (batched [1, 2, 3] 2).flatten = [1, 2, 3]
        ∧ (∀ b ∈ batched [1, 2, 3] 2, b.length ≤ 2)
        ∧ (∀ b ∈ (batched [1, 2, 3] 2).dropLast, b.length = 2)) :=
  ⟨by decide, batched_spec [1, 2, 3] 2 (by decide)⟩

/-! ## C1: exhaustiveness of search -/

theorem aux_mem_dedupFirstAux (a : List Char) :
    ∀ (l seen : List (List Char)),
      (a ∈ dedupFirstAux seen l ↔ (a ∈ l ∧ a ∉ seen)) := by
  intro l
  induction l with
  | nil =>
    intro seen
    simp [dedupFirstAux]
  | cons x xs ih =>
    intro seen
    simp only [dedupFirstAux]
    by_cases hx : x ∈ seen
    · rw [if_pos hx, ih seen]
      constructor
      · exact fun h => ⟨List.mem_cons_of_mem _ h.1, h.2⟩
      · rintro ⟨h1, h2⟩
        rcases List.mem_cons.mp h1 with rfl | h1
        · exact absurd hx h2
        · exact ⟨h1, h2⟩
    · rw [if_neg hx]
      constructor
      · intro hmem
        rcases List.mem_cons.mp hmem with rfl | hmem
        · exact ⟨List.mem_cons_self _ _, hx⟩
        · obtain ⟨h1, h2⟩ := (ih (x :: seen)).mp hmem
          exact ⟨List.mem_cons_of_mem _ h1,
            fun hc => h2 (List.mem_cons_of_mem _ hc)⟩
      · rintro ⟨h1, h2⟩
        rcases List.mem_cons.mp h1 with rfl | h1
        · exact List.mem_cons_self _ _
        · by_cases hax : a = x
          · subst hax
            exact List.mem_cons_self _ _
          · refine List.mem_cons_of_mem _ ((ih (x :: seen)).mpr ⟨h1, ?_⟩)
            exact fun hc => (List.mem_cons.mp hc).elim hax h2

theorem aux_mem_dedupFirst (a : List Char) (l : List (List Char)) :
    a ∈ dedupFirst l ↔ a ∈ l := by
  rw [dedupFirst, aux_mem_dedupFirstAux]
  simp

theorem aux_exists_endsAt (ic : Bool) (p line : List Char)
    (hocc : containsSub line p = true) :
    ∃ e, e < line.length + 1 ∧ endsAt ic p line e = true := by
  rw [containsSub, List.any_eq_true] at hocc
  obtain ⟨i, hi, hslice⟩ := hocc
  rw [List.mem_range] at hi
  rw [beq_iff_eq] at hslice
  have hlen : p.length ≤ line.length - i := by
    have hl := congrArg List.length hslice
    rw [List.length_take, List.length_drop] at hl
    omega
  refine ⟨i + p.length, by omega, ?_⟩
  rw [endsAt]
  have h1 : decide (p.length ≤ i + p.length) = true := by simp
  rw [h1, Bool.true_and, Nat.add_sub_cancel, beq_iff_eq, foldStr,
    ← List.map_drop, ← List.map_take, hslice, foldStr]

theorem aux_mem_lineKeywords (pats : List (List Char)) (ic : Bool)
    (line p : List Char) (hp : p ∈ pats) (hne : p ≠ [])
    (hocc : containsSub line p = true) :
    p ∈ lineKeywords pats ic line := by
  obtain ⟨e, he, hends⟩ := aux_exists_endsAt ic p line hocc
  rw [lineKeywords, aux_mem_dedupFirst, List.mem_flatMap]
  refine ⟨e, List.mem_range.mpr he, ?_⟩
  rw [List.mem_filter]
  refine ⟨hp, ?_⟩
  have hemp : p.isEmpty = false := by
    cases p
    · exact absurd rfl hne
    · rfl
  simp [hends, hemp]

/-- C1: for every configured pattern set P and every text T containing at
least one occurrence of some pattern p in P (here: p occurs on the line with
0-based index i of T), search(T) reports a MatchInfo whose keyword list
contains p, at the correct 1-based line number i+1. -/
theorem search_exhaustive (pats : List (List Char)) (ic : Bool) (ctx : Nat)
    (text p : List Char) (i : Nat)
    (hp : p ∈ pats) (hne : p ≠ [])
    (hi : i < (splitLines text).length)
    (hocc : containsSub ((splitLines text).getD i []) p = true) :
    ∃ m ∈ search pats ic ctx text, m.lineNo = i + 1 ∧ p ∈ m.keywords := by
  have hkw : p ∈ lineKeywords pats ic ((splitLines text).getD i []) :=
    aux_mem_lineKeywords pats ic _ p hp hne hocc
  have hkwne : (lineKeywords pats ic ((splitLines text).getD i [])).isEmpty
      = false := aux_isEmpty_false_of_mem hkw
  refine ⟨{ filePath := none, lineNo := i + 1,
            keywords := lineKeywords pats ic ((splitLines text).getD i []),
            lines := contextWindow (splitLines text) ctx i }, ?_, rfl, hkw⟩
  rw [search]
  apply List.mem_filterMap.mpr
  refine ⟨i, List.mem_range.mpr hi, ?_⟩
  simp only [hkwne, Bool.false_eq_true, if_false]

theorem search_exhaustive_witness :
    ∃ m ∈ search [['a']] true 1 ['x', '\n', 'a'],
      m.lineNo = 1 + 1 ∧ ['a'] ∈ m.keywords :=
  search_exhaustive [['a']] true 1 ['x', '\n', 'a'] ['a'] 1 (by decide)
    (by decide) (by decide) (by decide)

/-! ## C4 and C7: the search loop, cancellation and progress -/

theorem aux_searchLoop_eq (pats : List (List Char)) (ic : Bool) (ctx : Nat)
    (total k : Nat) :
    ∀ (bs : List (List (String × Option (List Char)))) (i : Nat)
      (accM : List MatchInfo) (accP : Nat),
      searchLoop pats ic ctx total (fun j => decide (k ≤ j)) bs i accM accP
        = (accM ++ ((bs.take (k - i)).map (batchMatches pats ic ctx)).flatten,
           accP + ((bs.take (k - i)).map List.length).sum,
           traceFrom total ((bs.take (k - i)).map List.length) accP) := by
  intro bs
  induction bs with
  | nil =>
    intro i accM accP
    simp [searchLoop, traceFrom]
  | cons b rest ih =>
    intro i accM accP
    by_cases hik : k ≤ i
    · have hsub : k - i = 0 := Nat.sub_eq_zero_of_le hik
      have hd : decide (k ≤ i) = true := decide_eq_true hik
      simp [searchLoop, hd, hsub, traceFrom]
    · have hsub : k - i = (k - (i + 1)) + 1 := by omega
      have hd : decide (k ≤ i) = false := decide_eq_false hik
      simp only [searchLoop, hd, Bool.false_eq_true, if_false]
      rw [ih (i + 1) (accM ++ batchMatches pats ic ctx b) (accP + b.length)]
      rw [hsub, List.take_succ_cons]
      simp [traceFrom, List.append_assoc, Nat.add_assoc]

theorem aux_traceFrom_length (total : Nat) :
    ∀ (lens : List Nat) (p : Nat),
      (traceFrom total lens p).length = lens.length := by
  intro lens
  induction lens with
  | nil =>
    intro p
    rfl
  | cons n rest ih =>
    intro p
    simp [traceFrom, ih]

theorem aux_traceFrom_getD (total : Nat) :
    ∀ (lens : List Nat) (p j : Nat), j < lens.length →
      (traceFrom total lens p).getD j (0, 0)
        = ((if total = 0 then 0
            else ((p + (lens.take (j + 1)).sum : Nat) : ℚ) / (total : ℚ)),
           p + (lens.take (j + 1)).sum) := by
  intro lens
  induction lens with
  | nil =>
    intro p j hj
    exact absurd hj (by simp)
  | cons n rest ih =>
    intro p j hj
    cases j with
    | zero =>
      simp [traceFrom]
    | succ j =>
      have hj' : j < rest.length := by
        simp only [List.length_cons] at hj
        omega
      rw [show traceFrom total (n :: rest) p
          = ((if total = 0 then 0 else ((p + n : Nat) : ℚ) / (total : ℚ)),
             p + n) :: traceFrom total rest (p + n) from rfl]
      rw [List.getD_cons_succ, ih (p + n) j hj', List.take_succ_cons,
        List.sum_cons, Nat.add_assoc]

theorem aux_sum_take_le (l : List Nat) (n : Nat) :
    (l.take n).sum ≤ l.sum := by
  conv_rhs => rw [← List.take_append_drop n l]
  rw [List.sum_append]
  exact Nat.le_add_right _ _

theorem aux_sum_take_mono (l : List Nat) {m n : Nat} (h : m ≤ n) :
    (l.take m).sum ≤ (l.take n).sum := by
  have heq : (l.take n).take m = l.take m := by
    rw [List.take_take, Nat.min_eq_left h]
  rw [← heq]
  exact aux_sum_take_le _ _

theorem aux_batched_length_sum {α : Type} (l : List α) (size : Nat)
    (h : 0 < size) :
    ((batched l size).map List.length).sum = l.length := by
  have hj := (aux_batched_props size h l.length l (le_refl _)).2.1
  conv_rhs => rw [← hj]
  exact (List.length_flatten _).symm

theorem aux_storedTrace_eq (pats : List (List Char)) (ic : Bool) (ctx : Nat)
    (files : List (String × Option (List Char))) (bsz k : Nat) :
    storedTrace pats ic ctx files bsz k
      = traceFrom files.length
          (((batched files bsz).take k).map List.length) 0 := by
  simp only [storedTrace, runFullSearch, aux_searchLoop_eq, Nat.sub_zero]

/-- C4: when the cooperative cancellation signal is set from the k-th batch
check onward during a multi-file search, the loop stops starting new batches,
run_full_search ends cleanly with the completed flag set, and the stored
result set is exactly every match accumulated from the k batches completed
before the cancellation check fired. -/
theorem runFullSearch_cancellation (pats : List (List Char)) (ic : Bool)
    (ctx : Nat) (files : List (String × Option (List Char))) (bsz k : Nat)
    (_hk : k < (batched files bsz).length) :
    (runFullSearch pats ic ctx files bsz (fun j => decide (k ≤ j))).results
        = (((batched files bsz).take k).map
            (batchMatches pats ic ctx)).flatten
      ∧ (runFullSearch pats ic ctx files bsz
            (fun j => decide (k ≤ j))).completed = true := by
  constructor
  · simp only [runFullSearch, aux_searchLoop_eq, Nat.sub_zero,
      List.nil_append]
  · rfl

theorem runFullSearch_cancellation_witness :
    (runFullSearch [] true 0 [("a", none), ("b", none)] 1
        (fun j => decide (1 ≤ j))).results
      = (((batched [("a", none), ("b", none)] 1).take 1).map
          (batchMatches [] true 0)).flatten
    ∧ (runFullSearch [] true 0 [("a", none), ("b", none)] 1
        (fun j => decide (1 ≤ j))).completed = true :=
  runFullSearch_cancellation [] true 0 [("a", none), ("b", none)] 1 1
    (by simp [batched])

/-- C7: throughout a search run, after each processed batch the stored
processed count equals the total number of paths in all batches processed so
far, the stored progress equals the processed count divided by the total
count (0 when the total is 0), progress never exceeds 1, and progress is
non-decreasing along the run. -/
theorem runFullSearch_progress_invariant (pats : List (List Char)) (ic : Bool)
    (ctx : Nat) (files : List (String × Option (List Char))) (bsz k : Nat)
    (hbsz : 0 < bsz) :
    ∀ j, j < (storedTrace pats ic ctx files bsz k).length →
      (((storedTrace pats ic ctx files bsz k).getD j (0, 0)).2
          = (((batched files bsz).take (j + 1)).map List.length).sum
        ∧ ((storedTrace pats ic ctx files bsz k).getD j (0, 0)).1
          = (if files.length = 0 then 0
             else ((((batched files bsz).take (j + 1)).map
                 List.length).sum : ℚ) / (files.length : ℚ))
        ∧ ((storedTrace pats ic ctx files bsz k).getD j (0, 0)).1 ≤ 1
        ∧ ∀ j', j' < (storedTrace pats ic ctx files bsz k).length → j ≤ j' →
            ((storedTrace pats ic ctx files bsz k).getD j (0, 0)).1
              ≤ ((storedTrace pats ic ctx files bsz k).getD j' (0, 0)).1) := by
  intro j hj
  rw [aux_storedTrace_eq] at hj
  rw [aux_traceFrom_length] at hj
  have hjk : j < k ∧ j < (batched files bsz).length := by
    rw [List.length_map, List.length_take] at hj
    omega
  have hlens : (((batched files bsz).take k).map List.length).take (j + 1)
      = ((batched files bsz).take (j + 1)).map List.length := by
    rw [← List.map_take, List.take_take, Nat.min_eq_left (by omega : j + 1 ≤ k)]
  have hsumle : (((batched files bsz).take (j + 1)).map List.length).sum
      ≤ files.length := by
    rw [List.map_take]
    calc (((batched files bsz).map List.length).take (j + 1)).sum
        ≤ ((batched files bsz).map List.length).sum := aux_sum_take_le _ _
      _ = files.length := aux_batched_length_sum files bsz hbsz
  refine ⟨?_, ?_, ?_, ?_⟩
  · rw [aux_storedTrace_eq, aux_traceFrom_getD files.length _ 0 j hj]
    rw [hlens, Nat.zero_add]
  · rw [aux_storedTrace_eq, aux_traceFrom_getD files.length _ 0 j hj]
    rw [hlens, Nat.zero_add]
  · rw [aux_storedTrace_eq, aux_traceFrom_getD files.length _ 0 j hj]
    by_cases hT : files.length = 0
    · rw [if_pos hT]
      exact zero_le_one
    · rw [if_neg hT]
      have hTpos : (0 : ℚ) < (files.length : ℚ) := by
        exact_mod_cast Nat.pos_of_ne_zero hT
      rw [div_le_one hTpos]
      rw [hlens, Nat.zero_add]
      exact_mod_cast hsumle
  · intro j' hj' hjj'
    rw [aux_storedTrace_eq, aux_traceFrom_length] at hj'
    rw [aux_storedTrace_eq, aux_traceFrom_getD files.length _ 0 j hj,
      aux_traceFrom_getD files.length _ 0 j' hj']
    by_cases hT : files.length = 0
    · rw [if_pos hT, if_pos hT]
    · rw [if_neg hT, if_neg hT]
      have hTpos : (0 : ℚ) < (files.length : ℚ) := by
        exact_mod_cast Nat.pos_of_ne_zero hT
      rw [div_le_div_iff_of_pos_right hTpos]
      have hmono := aux_sum_take_mono
        (((batched files bsz).take k).map List.length)
        (Nat.succ_le_succ hjj')
      exact_mod_cast Nat.add_le_add_left hmono 0

theorem runFullSearch_progress_invariant_witness :
    ((storedTrace [] true 0 [("a", none)] 1 5).getD 0 (0, 0)).2
      = (((batched ([("a", none)] : List (String × Option (List Char))) 1).take
          (0 + 1)).map List.length).sum :=
  (runFullSearch_progress_invariant [] true 0 [("a", none)] 1 5 (by decide) 0
    (by rw [aux_storedTrace_eq, aux_traceFrom_length]; simp [batched])).1

end FastMatcher
